import Mathlib

/-!
# Verification of the mass_mailer dispatch pipeline

A shallow embedding of `mass_mailer.py` (config loading, recipient-list
parsing, per-recipient rendering, and the deduplicating send loop),
together with theorems settling the specification claims.

Modelling conventions:
* Python strings are Lean `String`s; helper functions (`pyStrip`,
  `pyUpper`, `splitOnChar`, `listReplace`) mirror the Python string
  operations used by the source (`strip`, `upper`, `split`, `replace`).
* The config dictionary is a function `String → Option String`, updated
  in line order, mirroring the Python `dict`.
* Fallible loaders return `Option`/`Except`; the `AssertionError` raised
  by `load_emails` is `Except.error line` carrying the offending
  (stripped) line, as the source's `assert ..., line` does.
* The SMTP transport is an oracle `SendCall → Bool` (`true` = delivered,
  `false` = `smtplib.SMTPException` raised and caught by the loop).
-/

/-! ## Python string primitives -/

/-- Whitespace characters removed by Python's `str.strip()` (ASCII part). -/
def isSpaceChar (c : Char) : Bool :=
  c = ' ' || c = '\t' || c = '\n' || c = '\r' || c = '\x0b' || c = '\x0c'

/-- `str.strip()` on a character list: drop whitespace at both ends. -/
def charStrip (l : List Char) : List Char :=
  ((l.dropWhile isSpaceChar).reverse.dropWhile isSpaceChar).reverse

/-- Python `s.strip()`. -/
def pyStrip (s : String) : String := String.mk (charStrip s.data)

/-- Python `s.upper()` (ASCII letters, as used for config keys). -/
def pyUpper (s : String) : String := String.mk (s.data.map Char.toUpper)

/-- Python `s.startswith("#")`. -/
def startsWithHash (s : String) : Bool :=
  match s.data with
  | [] => false
  | c :: _ => c == '#'

/-- Python `s.split(sep)` for a one-character separator: splits at every
occurrence, keeping empty fields (`"".split(",") = [""]`). -/
def splitOnChar (sep : Char) : List Char → List (List Char)
  | [] => [[]]
  | c :: cs =>
    if c == sep then [] :: splitOnChar sep cs
    else
      match splitOnChar sep cs with
      | [] => [[c]]
      | p :: ps => (c :: p) :: ps

/-- Fuel-driven worker for Python `str.replace`: replace the leftmost
occurrence of `pat`, skip past it, continue (non-overlapping, left to
right).  The fuel is only there to make the recursion structural; it is
always instantiated with the length of the subject list. -/
def listReplaceAux (pat rep : List Char) : Nat → List Char → List Char
  | _, [] => []
  | 0, s => s
  | fuel + 1, c :: cs =>
    if pat.isPrefixOf (c :: cs) then
      rep ++ listReplaceAux pat rep fuel (cs.drop (pat.length - 1))
    else
      c :: listReplaceAux pat rep fuel cs

/-- Python `s.replace(pat, rep)` on character lists (for nonempty `pat`). -/
def listReplace (pat rep s : List Char) : List Char :=
  listReplaceAux pat rep s.length s

/-- Fuel-driven worker counting leftmost non-overlapping occurrences of
`pat`, exactly the occurrences `listReplaceAux` replaces. -/
def countOccsAux (pat : List Char) : Nat → List Char → Nat
  | _, [] => 0
  | 0, _ => 0
  | fuel + 1, c :: cs =>
    if pat.isPrefixOf (c :: cs) then
      1 + countOccsAux pat fuel (cs.drop (pat.length - 1))
    else
      countOccsAux pat fuel cs

/-- Number of (leftmost, non-overlapping) occurrences of `pat` in `s`. -/
def countOccs (pat s : List Char) : Nat := countOccsAux pat s.length s

/-- Python `s.replace(pat, rep)` on strings. -/
def pyReplace (s pat rep : String) : String :=
  String.mk (listReplace pat.data rep.data s.data)

/-- Occurrence count on strings. -/
def occurrences (pat s : String) : Nat := countOccs pat.data s.data

/-- The template placeholder literal `{{FIRST_LASTNAME}}`. -/
def placeholder : String := "\x7b\x7bFIRST_LASTNAME\x7d\x7d"

/-! ## Config loading (`load_config`) -/

/-- The config dictionary: uppercase keys to trimmed values. -/
def Dict := String → Option String

/-- The empty dictionary `_config = {}`. -/
def dEmpty : Dict := fun _ => none

/-- Python `d[key] = value`. -/
def dictUpdate (d : Dict) (k v : String) : Dict :=
  fun x => if x = k then some v else d x

/-- `line.strip().split("=")` followed by the `len(option) == 2` check:
a line is an assignment iff it contains exactly one `=`; the key is
trimmed and upper-cased, the value trimmed.  Other lines are ignored. -/
def lineKV (l : String) : Option (String × String) :=
  match splitOnChar '=' (pyStrip l).data with
  | [k, v] => some (pyUpper (pyStrip (String.mk k)), pyStrip (String.mk v))
  | _ => none

/-- One iteration of the config-file loop. -/
def parseStep (d : Dict) (l : String) : Dict :=
  match lineKV l with
  | some kv => dictUpdate d kv.1 kv.2
  | none => d

/-- The config-file loop: process lines in order into the dictionary. -/
def parseLines (lines : List String) : Dict :=
  lines.foldl parseStep dEmpty

/-- The defaulting block of `load_config`: `REPLY-TO` falls back to
`FROM`, `FIRST_LASTNAME` falls back to `"Sir or Madam"`. -/
def withDefaults (d : Dict) : Dict :=
  let d1 := match d "REPLY-TO" with
    | some _ => d
    | none => dictUpdate d "REPLY-TO" ((d "FROM").getD "")
  match d1 "FIRST_LASTNAME" with
  | some _ => d1
  | none => dictUpdate d1 "FIRST_LASTNAME" "Sir or Madam"

/-- `load_config`: parse all lines, check the required keys `SMTP`,
`FROM`, `SUBJECT` are present (`assert key in _config.keys()`), then
apply the defaults.  `none` models the `AssertionError`. -/
def load_config (lines : List String) : Option Dict :=
  let d := parseLines lines
  if (d "SMTP").isSome && (d "FROM").isSome && (d "SUBJECT").isSome then
    some (withDefaults d)
  else
    none

/-! ## Recipient-list loading (`load_emails`) -/

/-- A recipient row: `(firstName or None, lastName or None, email)`. -/
structure Recipient where
  firstName : Option String
  lastName : Option String
  email : String
deriving DecidableEq

/-- `data[i].strip() or None`: a blank field is stored as `none`. -/
def fieldOpt (l : List Char) : Option String :=
  let t := charStrip l
  if t.isEmpty then none else some (String.mk t)

/-- `load_emails`: strip each line, skip `#` comment lines, split the
rest on `,` into exactly 3 fields with `@` required in the third, else
fail (`assert len(data) == 3 and "@" in data[2], line`) carrying the
stripped offending line.  Note that blank lines are NOT skipped: they
reach the assert and fail. -/
def load_emails : List String → Except String (List Recipient)
  | [] => .ok []
  | l :: ls =>
    if startsWithHash (pyStrip l) then load_emails ls
    else
      match splitOnChar ',' (pyStrip l).data with
      | [a, b, c] =>
        if c.contains '@' then
          match load_emails ls with
          | .ok rs =>
            .ok ({ firstName := fieldOpt a, lastName := fieldOpt b,
                   email := String.mk (charStrip c) } :: rs)
          | .error e => .error e
        else .error (pyStrip l)
      | _ => .error (pyStrip l)

/-- Whether a (stripped) line passes the row assert of `load_emails`:
it splits on `,` into exactly 3 fields and the third contains `@`. -/
def goodRow (line : String) : Bool :=
  match splitOnChar ',' line.data with
  | [_, _, c] => c.contains '@'
  | _ => false

/-- Whether a raw line gets through `load_emails` without failing: it is
a comment line, or a well-formed row. -/
def lineOk (l : String) : Bool :=
  startsWithHash (pyStrip l) || goodRow (pyStrip l)

/-! ## Rendering -/

/-- Python `str(x)` on an optional string: `None` prints as `"None"`.
This is exactly what `u"{0} {1}".format(first, last)` does when the
last name is `None`. -/
def pyStr : Option String → String
  | none => "None"
  | some s => s

/-- The display-name computation of the send loop:
`if recipient[0]: FIRST_LASTNAME = u"{0} {1}".format(...).strip()
 else: FIRST_LASTNAME = CONFIG["FIRST_LASTNAME"]`. -/
def displayName (defaultName : String) (r : Recipient) : String :=
  match r.firstName with
  | some fn => if fn.isEmpty then defaultName else pyStrip (fn ++ " " ++ pyStr r.lastName)
  | none => defaultName

/-- Modelled from the spec: the display-name formula the specification
states for the renderer, `trim(firstName + " " + (lastName or ""))` when
the first name is present, else the configured default.  Kept separate
from `displayName` (the source's computation) for comparison. -/
def displayNameSpec (defaultName : String) (r : Recipient) : String :=
  match r.firstName with
  | some fn => pyStrip (fn ++ " " ++ r.lastName.getD "")
  | none => defaultName

/-! ## The send loop -/

/-- Live vs `--dry-run` mode. -/
inductive Mode where
  | live
  | dryRun
deriving DecidableEq

/-- The `MIMEText` message with its header fields (lines 237-242). -/
structure Message where
  fromAddr : String
  replyTo : String
  toAddr : String
  subject : String
  body : String

/-- One invocation of `s.sendmail(CONFIG["FROM"], recipients,
msg.as_string())`. -/
structure SendCall where
  fromAddr : String
  rcpts : List String
  msg : Message

/-- The rendered message for one recipient. -/
def buildMessage (cfg : Dict) (template : String) (r : Recipient) : Message :=
  { fromAddr := (cfg "FROM").getD ""
    replyTo := (cfg "REPLY-TO").getD ""
    toAddr := r.email
    subject := (cfg "SUBJECT").getD ""
    body := pyReplace template placeholder
              (displayName ((cfg "FIRST_LASTNAME").getD "") r) }

/-- The transport call for one recipient: recipient list is the `To`
address plus `BCC` if configured. -/
def buildCall (cfg : Dict) (template : String) (r : Recipient) : SendCall :=
  { fromAddr := (cfg "FROM").getD ""
    rcpts := r.email :: (match cfg "BCC" with | some b => [b] | none => [])
    msg := buildMessage cfg template r }

/-- The loop's mutable run state: `ERRORS`, `SKIPPED`,
`USED_EMAIL_ADDRESSES`, plus the log of transport invocations actually
made (empty in dry-run mode, which never contacts the transport). -/
structure LoopState where
  errors : Nat
  skipped : Nat
  seen : Finset String
  calls : List SendCall

/-- `ERRORS = 0; SKIPPED = 0; USED_EMAIL_ADDRESSES = set()`. -/
def initState : LoopState := ⟨0, 0, ∅, []⟩

/-- One iteration of the send loop (lines 217-279): skip duplicates,
otherwise mark the email as used BEFORE the send attempt, render, and
dispatch.  In live mode the transport is invoked; on failure
(`smtplib.SMTPException`) `ERRORS` is incremented and the loop
continues.  In dry-run mode the transport is never invoked. -/
def processRecipient (cfg : Dict) (template : String) (mode : Mode)
    (transport : SendCall → Bool) (st : LoopState) (r : Recipient) : LoopState :=
  if r.email ∈ st.seen then
    { st with skipped := st.skipped + 1 }
  else
    match mode with
    | Mode.dryRun =>
        { st with seen := insert r.email st.seen }
    | Mode.live =>
        if transport (buildCall cfg template r) then
          { st with seen := insert r.email st.seen,
                    calls := st.calls ++ [buildCall cfg template r] }
        else
          { st with seen := insert r.email st.seen,
                    calls := st.calls ++ [buildCall cfg template r],
                    errors := st.errors + 1 }

/-- The whole send loop over the recipient list. -/
def runLoop (cfg : Dict) (template : String) (mode : Mode)
    (transport : SendCall → Bool) (l : List Recipient) : LoopState :=
  l.foldl (processRecipient cfg template mode transport) initState

/-- The final `Done. {ERRORS} errors, {SKIPPED} skipped emails when
trying to send {len(EMAILS)} messages` report. -/
def finalReport (cfg : Dict) (template : String) (mode : Mode)
    (transport : SendCall → Bool) (l : List Recipient) : Nat × Nat × Nat :=
  ((runLoop cfg template mode transport l).errors,
   (runLoop cfg template mode transport l).skipped,
   l.length)

/-- The `__main__` flow restricted to the recipient file: a load failure
aborts before the send loop runs; otherwise the loop processes the
parsed list. -/
def mainRun (cfg : Dict) (template : String) (mode : Mode)
    (transport : SendCall → Bool) (emailLines : List String) :
    Except String LoopState :=
  match load_emails emailLines with
  | .error e => .error e
  | .ok rs => .ok (runLoop cfg template mode transport rs)

/-- Modelled from the spec: the deduplicated, order-preserving sequence
of email addresses ("first occurrence wins") that the dispatcher is
supposed to attempt, given a set of already-seen addresses.  Used to
compare the transport-call log against the specified behaviour. -/
def firstOccurrences (seen : Finset String) : List String → List String
  | [] => []
  | e :: es =>
    if e ∈ seen then firstOccurrences seen es
    else e :: firstOccurrences (insert e seen) es

/-! ## Lemmas about `isPrefixOf` -/

/-- A list is a prefix of itself followed by anything. -/
lemma isPrefixOf_append_self (l r : List Char) : l.isPrefixOf (l ++ r) = true := by
  induction l with
  | nil => simp [List.isPrefixOf]
  | cons a as ih => simp [List.isPrefixOf, ih]

/-- Unfolding a cons/cons prefix test. -/
lemma prefixHead {x y : Char} {p ys : List Char}
    (h : (x :: p).isPrefixOf (y :: ys) = true) : x = y ∧ p.isPrefixOf ys = true := by
  simpa [List.isPrefixOf, Bool.and_eq_true, beq_iff_eq] using h

/-- Building a cons/cons prefix test. -/
lemma prefixCons {x : Char} {p ys : List Char}
    (h : p.isPrefixOf ys = true) : (x :: p).isPrefixOf (x :: ys) = true := by
  simp [List.isPrefixOf, h]

/-- A prefix test fails when the heads differ. -/
lemma prefixHeadNe {x y : Char} {p ys : List Char} (h : x ≠ y) :
    (x :: p).isPrefixOf (y :: ys) = false := by
  simp [List.isPrefixOf, h]

/-- Every character of a prefix occurs in the larger list. -/
lemma prefixSubset : ∀ (p s : List Char), p.isPrefixOf s = true → ∀ a ∈ p, a ∈ s := by
  intro p
  induction p with
  | nil => intro s _ a ha; cases ha
  | cons x p' ih =>
    intro s h a ha
    cases s with
    | nil => simp [List.isPrefixOf] at h
    | cons y ys =>
      obtain ⟨hxy, hp⟩ := prefixHead h
      rcases List.mem_cons.mp ha with rfl | ha'
      · exact hxy ▸ List.mem_cons_self y ys
      · exact List.mem_cons_of_mem _ (ih ys hp a ha')

/-! ## Step equations for `listReplace` and `countOccs` -/

/-- The fuel argument of `listReplaceAux` is irrelevant once it covers
the length of the subject list. -/
lemma listReplaceAux_fuel (pat rep : List Char) :
    ∀ f₁ f₂ s, s.length ≤ f₁ → s.length ≤ f₂ →
      listReplaceAux pat rep f₁ s = listReplaceAux pat rep f₂ s := by
  intro f₁
  induction f₁ with
  | zero =>
    intro f₂ s h₁ _
    have hs : s = [] := List.eq_nil_of_length_eq_zero (Nat.le_zero.mp h₁)
    subst hs
    cases f₂ <;> simp [listReplaceAux]
  | succ n ih =>
    intro f₂ s h₁ h₂
    cases s with
    | nil => cases f₂ <;> simp [listReplaceAux]
    | cons c cs =>
      cases f₂ with
      | zero => simp at h₂
      | succ m =>
        simp only [listReplaceAux]
        by_cases hp : pat.isPrefixOf (c :: cs)
        · simp only [hp, if_true]
          have hlen : (cs.drop (pat.length - 1)).length ≤ cs.length := by
            simp [List.length_drop]
          refine congrArg (rep ++ ·) (ih m _ ?_ ?_)
          · exact le_trans hlen (by simpa using h₁)
          · exact le_trans hlen (by simpa using h₂)
        · simp only [hp, if_false]
          refine congrArg (c :: ·) (ih m cs ?_ ?_)
          · simpa using h₁
          · simpa using h₂

/-- Same fuel-irrelevance for the occurrence counter. -/
lemma countOccsAux_fuel (pat : List Char) :
    ∀ f₁ f₂ s, s.length ≤ f₁ → s.length ≤ f₂ →
      countOccsAux pat f₁ s = countOccsAux pat f₂ s := by
  intro f₁
  induction f₁ with
  | zero =>
    intro f₂ s h₁ _
    have hs : s = [] := List.eq_nil_of_length_eq_zero (Nat.le_zero.mp h₁)
    subst hs
    cases f₂ <;> simp [countOccsAux]
  | succ n ih =>
    intro f₂ s h₁ h₂
    cases s with
    | nil => cases f₂ <;> simp [countOccsAux]
    | cons c cs =>
      cases f₂ with
      | zero => simp at h₂
      | succ m =>
        simp only [countOccsAux]
        by_cases hp : pat.isPrefixOf (c :: cs)
        · simp only [hp, if_true]
          have hlen : (cs.drop (pat.length - 1)).length ≤ cs.length := by
            simp [List.length_drop]
          refine congrArg (1 + ·) (ih m _ ?_ ?_)
          · exact le_trans hlen (by simpa using h₁)
          · exact le_trans hlen (by simpa using h₂)
        · simp only [hp, if_false]
          refine ih m cs ?_ ?_
          · simpa using h₁
          · simpa using h₂

/-- `listReplace` on the empty subject. -/
lemma listReplace_nil (pat rep : List Char) : listReplace pat rep [] = [] := rfl

/-- Python-replace step: on a match, emit the replacement and skip past
the matched pattern; otherwise keep the head and continue. -/
lemma listReplace_cons (pat rep : List Char) (c : Char) (cs : List Char) :
    listReplace pat rep (c :: cs) =
      if pat.isPrefixOf (c :: cs) then
        rep ++ listReplace pat rep (cs.drop (pat.length - 1))
      else
        c :: listReplace pat rep cs := by
  show listReplaceAux pat rep (cs.length + 1) (c :: cs) = _
  simp only [listReplaceAux]
  by_cases hp : pat.isPrefixOf (c :: cs)
  · simp only [hp, if_true]
    refine congrArg (rep ++ ·) (listReplaceAux_fuel pat rep _ _ _ ?_ le_rfl)
    simp [List.length_drop]
  · simp [hp]
    rfl

/-- `countOccs` on the empty subject. -/
lemma countOccs_nil (pat : List Char) : countOccs pat [] = 0 := rfl

/-- Occurrence-count step, mirroring `listReplace_cons`. -/
lemma countOccs_cons (pat : List Char) (c : Char) (cs : List Char) :
    countOccs pat (c :: cs) =
      if pat.isPrefixOf (c :: cs) then
        1 + countOccs pat (cs.drop (pat.length - 1))
      else
        countOccs pat cs := by
  show countOccsAux pat (cs.length + 1) (c :: cs) = _
  simp only [countOccsAux]
  by_cases hp : pat.isPrefixOf (c :: cs)
  · simp only [hp, if_true]
    refine congrArg (1 + ·) (countOccsAux_fuel pat _ _ _ ?_ le_rfl)
    simp [List.length_drop]
  · simp [hp]
    rfl

/-! ## Occurrence/replacement lemmas for the renderer -/

/-- No occurrences when the pattern's first character is absent. -/
lemma countOccs_zero_of_head_not_mem {p0 : Char} {pt s : List Char}
    (h : p0 ∉ s) : countOccs (p0 :: pt) s = 0 := by
  induction s with
  | nil => exact countOccs_nil _
  | cons c cs ih =>
    rw [countOccs_cons]
    have hne : p0 ≠ c := fun he => h (he ▸ List.mem_cons_self c cs)
    rw [prefixHeadNe hne]
    simp only [if_false, Bool.false_eq_true]
    exact ih (fun hmem => h (List.mem_cons_of_mem c hmem))

/-- Replacing a pattern that does not occur leaves the subject unchanged. -/
lemma listReplace_of_no_occ {pat rep : List Char} :
    ∀ {s : List Char}, countOccs pat s = 0 → listReplace pat rep s = s := by
  intro s
  induction s with
  | nil => intro _; rfl
  | cons c cs ih =>
    intro h
    rw [countOccs_cons] at h
    rw [listReplace_cons]
    by_cases hp : pat.isPrefixOf (c :: cs)
    · rw [hp] at h; simp at h
    · rw [if_neg hp]
      rw [if_neg hp] at h
      rw [ih h]

/-- Prepending characters that cannot start the pattern does not change
the occurrence count. -/
lemma countOccs_append_of_head_not_mem {p0 : Char} {pt : List Char} {d : List Char}
    (h : p0 ∉ d) (r : List Char) :
    countOccs (p0 :: pt) (d ++ r) = countOccs (p0 :: pt) r := by
  induction d with
  | nil => rfl
  | cons x d' ih =>
    have hne : p0 ≠ x := fun he => h (he ▸ List.mem_cons_self x d')
    rw [List.cons_append, countOccs_cons, prefixHeadNe hne]
    simp only [if_false, Bool.false_eq_true]
    exact ih (fun hmem => h (List.mem_cons_of_mem x hmem))

/-- A prefix of the replaced text that avoids the replacement's
characters was already a prefix of the original text. -/
lemma prefix_of_listReplace {pat d : List Char} (hd : d ≠ []) :
    ∀ (q : List Char), (∀ a ∈ q, a ∉ d) →
      ∀ u, q.isPrefixOf (listReplace pat d u) = true → q.isPrefixOf u = true := by
  intro q
  induction q with
  | nil => intro _ u _; simp [List.isPrefixOf]
  | cons x q' ih =>
    intro hq u h
    cases u with
    | nil => rw [listReplace_nil] at h; simp [List.isPrefixOf] at h
    | cons y ys =>
      rw [listReplace_cons] at h
      by_cases hp : pat.isPrefixOf (y :: ys)
      · rw [if_pos hp] at h
        cases d with
        | nil => exact absurd rfl hd
        | cons d0 d' =>
          rw [List.cons_append] at h
          obtain ⟨hx, _⟩ := prefixHead h
          exact absurd (hx ▸ List.mem_cons_self d0 d')
            (hq x (List.mem_cons_self x q'))
      · rw [if_neg hp] at h
        obtain ⟨hx, hq'⟩ := prefixHead h
        have : q'.isPrefixOf ys = true :=
          ih (fun a ha => hq a (List.mem_cons_of_mem x ha)) ys hq'
        exact hx ▸ prefixCons this

/-- After replacement with text sharing no character with the pattern,
no occurrence of the pattern remains. -/
lemma countOccs_listReplace_self {pat d : List Char} (hd : d ≠ []) (hpat : pat ≠ [])
    (hdis : ∀ a ∈ pat, a ∉ d) :
    ∀ (n : Nat) (s : List Char), s.length ≤ n →
      countOccs pat (listReplace pat d s) = 0 := by
  intro n
  induction n with
  | zero =>
    intro s hs
    have : s = [] := List.eq_nil_of_length_eq_zero (Nat.le_zero.mp hs)
    subst this
    exact countOccs_nil _
  | succ n ih =>
    intro s hs
    cases s with
    | nil => exact countOccs_nil _
    | cons c cs =>
      rw [listReplace_cons]
      by_cases hp : pat.isPrefixOf (c :: cs)
      · rw [if_pos hp]
        cases pat with
        | nil => exact absurd rfl hpat
        | cons p0 pt =>
          rw [countOccs_append_of_head_not_mem
            (hdis p0 (List.mem_cons_self p0 pt))]
          refine ih _ ?_
          calc (cs.drop ((p0 :: pt).length - 1)).length
              ≤ cs.length := by simp [List.length_drop]
            _ ≤ n := by simpa using hs
      · rw [if_neg hp]
        rw [countOccs_cons]
        by_cases hq : pat.isPrefixOf (c :: listReplace pat d cs)
        · exfalso
          cases pat with
          | nil => exact absurd rfl hpat
          | cons p0 pt =>
            obtain ⟨hx, hpt⟩ := prefixHead hq
            have hpt' : pt.isPrefixOf cs = true :=
              prefix_of_listReplace hd pt
                (fun a ha => hdis a (List.mem_cons_of_mem p0 ha)) cs hpt
            exact hp (hx ▸ prefixCons hpt')
        · rw [if_neg hq]
          exact ih cs (by simpa using hs)

/-- Dropping elements preserves non-membership. -/
lemma not_mem_drop_of_not_mem {a : Char} {l : List Char} (h : a ∉ l) (n : Nat) :
    a ∉ l.drop n :=
  fun hmem => h ((List.drop_sublist n l).mem hmem)

/-- Dropping the length of the left part of an append yields the right
part. -/
lemma drop_length_append (l r : List Char) : (l ++ r).drop l.length = r := by
  induction l with
  | nil => rfl
  | cons x xs ih => simp [ih]

/-- Replacing the pattern by text whose characters are all absent from
the subject turns every pattern occurrence into exactly one occurrence
of the replacement, and creates no other. -/
lemma countOccs_rep_listReplace {pat d : List Char} (hd : d ≠ []) :
    ∀ (n : Nat) (s : List Char), s.length ≤ n → (∀ a ∈ d, a ∉ s) →
      countOccs d (listReplace pat d s) = countOccs pat s := by
  intro n
  induction n with
  | zero =>
    intro s hs _
    have : s = [] := List.eq_nil_of_length_eq_zero (Nat.le_zero.mp hs)
    subst this
    rfl
  | succ n ih =>
    intro s hs hdis
    cases s with
    | nil => rfl
    | cons c cs =>
      rw [listReplace_cons]
      by_cases hp : pat.isPrefixOf (c :: cs)
      · rw [if_pos hp]
        cases d with
        | nil => exact absurd rfl hd
        | cons d0 d' =>
          rw [List.cons_append, countOccs_cons]
          have hpre : (d0 :: d').isPrefixOf
              (d0 :: (d' ++ listReplace pat (d0 :: d') (cs.drop (pat.length - 1)))) = true := by
            have := isPrefixOf_append_self (d0 :: d')
              (listReplace pat (d0 :: d') (cs.drop (pat.length - 1)))
            rw [List.cons_append] at this
            exact this
          rw [if_pos hpre]
          have hdrop : (d' ++ listReplace pat (d0 :: d')
              (cs.drop (pat.length - 1))).drop ((d0 :: d').length - 1)
              = listReplace pat (d0 :: d') (cs.drop (pat.length - 1)) := by
            have : (d0 :: d').length - 1 = d'.length := by simp
            rw [this]
            exact drop_length_append _ _
          rw [hdrop]
          have hlen : (cs.drop (pat.length - 1)).length ≤ n := by
            calc (cs.drop (pat.length - 1)).length
                ≤ cs.length := by simp [List.length_drop]
              _ ≤ n := by simpa using hs
          have hdis' : ∀ a ∈ (d0 :: d'), a ∉ cs.drop (pat.length - 1) := by
            intro a ha
            exact not_mem_drop_of_not_mem
              (fun hmem => hdis a ha (List.mem_cons_of_mem c hmem)) _
          rw [ih _ hlen hdis']
          rw [countOccs_cons, if_pos hp]
      · rw [if_neg hp]
        rw [countOccs_cons]
        cases d with
        | nil => exact absurd rfl hd
        | cons d0 d' =>
          have hne : d0 ≠ c := fun he =>
            hdis d0 (List.mem_cons_self d0 d') (he ▸ List.mem_cons_self c cs)
          rw [prefixHeadNe hne]
          simp only [if_false, Bool.false_eq_true]
          have hdis' : ∀ a ∈ (d0 :: d'), a ∉ cs := fun a ha hmem =>
            hdis a ha (List.mem_cons_of_mem c hmem)
          rw [ih cs (by simpa using hs) hdis']
          rw [countOccs_cons, if_neg hp]

/-- If the pattern occurs at all, each of its characters occurs in the
subject. -/
lemma mem_of_countOccs_ne_zero {pat : List Char} :
    ∀ {s : List Char}, countOccs pat s ≠ 0 → ∀ a ∈ pat, a ∈ s := by
  intro s
  induction s with
  | nil => intro h; exact absurd (countOccs_nil pat) h
  | cons c cs ih =>
    intro h a ha
    rw [countOccs_cons] at h
    by_cases hp : pat.isPrefixOf (c :: cs)
    · exact prefixSubset pat (c :: cs) hp a ha
    · rw [if_neg hp] at h
      exact List.mem_cons_of_mem c (ih h a ha)

/-! ## Lemmas about the send loop -/

/-- The `To` header of a built call is the recipient's email. -/
lemma buildCall_toAddr (cfg : Dict) (template : String) (r : Recipient) :
    (buildCall cfg template r).msg.toAddr = r.email := rfl

/-- A duplicate recipient only bumps `SKIPPED`. -/
lemma processRecipient_dup {cfg : Dict} {template : String} {mode : Mode}
    {transport : SendCall → Bool} {st : LoopState} {r : Recipient}
    (h : r.email ∈ st.seen) :
    processRecipient cfg template mode transport st r =
      { st with skipped := st.skipped + 1 } := by
  simp [processRecipient, h]

/-- A fresh recipient is marked seen regardless of mode and transport
outcome (the source adds to `USED_EMAIL_ADDRESSES` before the `try`). -/
lemma processRecipient_seen (cfg : Dict) (template : String) (mode : Mode)
    (transport : SendCall → Bool) (st : LoopState) (r : Recipient) :
    r.email ∈ (processRecipient cfg template mode transport st r).seen := by
  by_cases h : r.email ∈ st.seen
  · simpa [processRecipient_dup h] using h
  · cases mode with
    | dryRun => simp [processRecipient, h]
    | live =>
      by_cases ht : transport (buildCall cfg template r) <;>
        simp [processRecipient, h, ht]

/-- Each loop iteration adds exactly one to `SKIPPED + |seen|`. -/
lemma processRecipient_skipped_card (cfg : Dict) (template : String) (mode : Mode)
    (transport : SendCall → Bool) (st : LoopState) (r : Recipient) :
    (processRecipient cfg template mode transport st r).skipped
      + (processRecipient cfg template mode transport st r).seen.card
      = st.skipped + st.seen.card + 1 := by
  by_cases h : r.email ∈ st.seen
  · simp [processRecipient_dup h]; omega
  · cases mode with
    | dryRun => simp [processRecipient, h, Finset.card_insert_of_not_mem h]; omega
    | live =>
      by_cases ht : transport (buildCall cfg template r) <;>
        simp [processRecipient, h, ht, Finset.card_insert_of_not_mem h] <;> omega

/-- Over a whole list, `SKIPPED + |seen|` grows by the list length. -/
lemma foldl_skipped_card (cfg : Dict) (template : String) (mode : Mode)
    (transport : SendCall → Bool) :
    ∀ (l : List Recipient) (st : LoopState),
      (l.foldl (processRecipient cfg template mode transport) st).skipped
        + (l.foldl (processRecipient cfg template mode transport) st).seen.card
        = st.skipped + st.seen.card + l.length := by
  intro l
  induction l with
  | nil => intro st; simp
  | cons r rs ih =>
    intro st
    rw [List.foldl_cons, ih, processRecipient_skipped_card]
    simp; omega

/-- The seen set only grows. -/
lemma processRecipient_seen_mono (cfg : Dict) (template : String) (mode : Mode)
    (transport : SendCall → Bool) (st : LoopState) (r : Recipient) :
    st.seen ⊆ (processRecipient cfg template mode transport st r).seen := by
  by_cases h : r.email ∈ st.seen
  · simp [processRecipient_dup h]
  · cases mode with
    | dryRun => simp [processRecipient, h, Finset.subset_insert]
    | live =>
      by_cases ht : transport (buildCall cfg template r) <;>
        simp [processRecipient, h, ht, Finset.subset_insert]

/-- The seen set only grows along the loop. -/
lemma foldl_seen_mono (cfg : Dict) (template : String) (mode : Mode)
    (transport : SendCall → Bool) :
    ∀ (l : List Recipient) (st : LoopState),
      st.seen ⊆ (l.foldl (processRecipient cfg template mode transport) st).seen := by
  intro l
  induction l with
  | nil => intro st; exact subset_rfl
  | cons r rs ih =>
    intro st
    rw [List.foldl_cons]
    exact subset_trans (processRecipient_seen_mono _ _ _ _ _ _) (ih _)

/-- Every email in the processed list ends up in the seen set. -/
lemma foldl_mem_seen (cfg : Dict) (template : String) (mode : Mode)
    (transport : SendCall → Bool) :
    ∀ (l : List Recipient) (st : LoopState) (e : String),
      e ∈ l.map (fun r => r.email) →
      e ∈ (l.foldl (processRecipient cfg template mode transport) st).seen := by
  intro l
  induction l with
  | nil => intro st e he; simp at he
  | cons r rs ih =>
    intro st e he
    rw [List.map_cons] at he
    rw [List.foldl_cons]
    rcases List.mem_cons.mp he with rfl | he'
    · exact foldl_seen_mono cfg template mode transport rs _
        (processRecipient_seen cfg template mode transport st r)
    · exact ih _ e he'

/-- `SKIPPED` never decreases. -/
lemma processRecipient_skipped_mono (cfg : Dict) (template : String) (mode : Mode)
    (transport : SendCall → Bool) (st : LoopState) (r : Recipient) :
    st.skipped ≤ (processRecipient cfg template mode transport st r).skipped := by
  by_cases h : r.email ∈ st.seen
  · simp [processRecipient_dup h]
  · cases mode with
    | dryRun => simp [processRecipient, h]
    | live =>
      by_cases ht : transport (buildCall cfg template r) <;>
        simp [processRecipient, h, ht]

/-- `SKIPPED` never decreases along the loop. -/
lemma foldl_skipped_mono (cfg : Dict) (template : String) (mode : Mode)
    (transport : SendCall → Bool) :
    ∀ (l : List Recipient) (st : LoopState),
      st.skipped ≤ (l.foldl (processRecipient cfg template mode transport) st).skipped := by
  intro l
  induction l with
  | nil => intro st; exact le_rfl
  | cons r rs ih =>
    intro st
    rw [List.foldl_cons]
    exact le_trans (processRecipient_skipped_mono _ _ _ _ _ _) (ih _)

/-- In live mode, the transport-call log is exactly the
first-occurrence deduplication of the processed emails. -/
lemma foldl_calls_live (cfg : Dict) (template : String)
    (transport : SendCall → Bool) :
    ∀ (l : List Recipient) (st : LoopState),
      (l.foldl (processRecipient cfg template Mode.live transport) st).calls.map
          (fun c => c.msg.toAddr)
        = st.calls.map (fun c => c.msg.toAddr)
          ++ firstOccurrences st.seen (l.map (fun r => r.email)) := by
  intro l
  induction l with
  | nil => intro st; simp [firstOccurrences]
  | cons r rs ih =>
    intro st
    rw [List.foldl_cons, List.map_cons]
    by_cases h : r.email ∈ st.seen
    · rw [processRecipient_dup h, ih]
      simp [firstOccurrences, h]
    · have hstep : ∀ st' : LoopState,
          st' = processRecipient cfg template Mode.live transport st r →
          st'.calls = st.calls ++ [buildCall cfg template r]
            ∧ st'.seen = insert r.email st.seen := by
        intro st' hst'
        by_cases ht : transport (buildCall cfg template r) <;>
          simp [hst', processRecipient, h, ht]
      obtain ⟨hcalls, hseen⟩ := hstep _ rfl
      rw [ih, hcalls, hseen]
      simp [firstOccurrences, h, buildCall_toAddr]

/-- In dry-run mode, neither the call log nor the error counter ever
changes. -/
lemma foldl_dry (cfg : Dict) (template : String) (transport : SendCall → Bool) :
    ∀ (l : List Recipient) (st : LoopState),
      (l.foldl (processRecipient cfg template Mode.dryRun transport) st).calls = st.calls
      ∧ (l.foldl (processRecipient cfg template Mode.dryRun transport) st).errors = st.errors := by
  intro l
  induction l with
  | nil => intro st; exact ⟨rfl, rfl⟩
  | cons r rs ih =>
    intro st
    rw [List.foldl_cons]
    have hstep : (processRecipient cfg template Mode.dryRun transport st r).calls = st.calls
        ∧ (processRecipient cfg template Mode.dryRun transport st r).errors = st.errors := by
      by_cases h : r.email ∈ st.seen
      · simp [processRecipient_dup h]
      · simp [processRecipient, h]
    obtain ⟨h1, h2⟩ := ih (processRecipient cfg template Mode.dryRun transport st r)
    exact ⟨h1.trans hstep.1, h2.trans hstep.2⟩

/-- The error counter counts exactly the failed transport calls. -/
lemma foldl_errors_countP (cfg : Dict) (template : String) (mode : Mode)
    (transport : SendCall → Bool) :
    ∀ (l : List Recipient) (st : LoopState),
      st.errors = st.calls.countP (fun c => !(transport c)) →
      (l.foldl (processRecipient cfg template mode transport) st).errors
        = (l.foldl (processRecipient cfg template mode transport) st).calls.countP
            (fun c => !(transport c)) := by
  intro l
  induction l with
  | nil => intro st h; simpa using h
  | cons r rs ih =>
    intro st h
    rw [List.foldl_cons]
    refine ih _ ?_
    by_cases hm : r.email ∈ st.seen
    · simpa [processRecipient_dup hm] using h
    · cases mode with
      | dryRun => simpa [processRecipient, hm] using h
      | live =>
        by_cases ht : transport (buildCall cfg template r) <;>
          simp [processRecipient, hm, ht, List.countP_append, h]

/-! ## Counting lemmas for `firstOccurrences` -/

/-- An already-seen email never reappears in the deduplicated sequence. -/
lemma firstOccurrences_count_zero :
    ∀ (es : List String) (seen : Finset String) (e : String), e ∈ seen →
      (firstOccurrences seen es).count e = 0 := by
  intro es
  induction es with
  | nil => intro seen e _; simp [firstOccurrences]
  | cons x xs ih =>
    intro seen e he
    by_cases h : x ∈ seen
    · simp only [firstOccurrences, if_pos h]
      exact ih seen e he
    · simp only [firstOccurrences, if_neg h]
      have hne : x ≠ e := fun hx => h (hx ▸ he)
      rw [List.count_cons]
      simp only [beq_iff_eq, hne, if_false]
      simpa using ih (insert x seen) e (Finset.mem_insert_of_mem he)

/-- Each email appears at most once in the deduplicated sequence. -/
lemma firstOccurrences_count_le_one :
    ∀ (es : List String) (seen : Finset String) (e : String),
      (firstOccurrences seen es).count e ≤ 1 := by
  intro es
  induction es with
  | nil => intro seen e; simp [firstOccurrences]
  | cons x xs ih =>
    intro seen e
    by_cases h : x ∈ seen
    · simp only [firstOccurrences, if_pos h]
      exact ih seen e
    · simp only [firstOccurrences, if_neg h]
      rw [List.count_cons]
      by_cases hx : x = e
      · subst hx
        rw [firstOccurrences_count_zero xs (insert x seen) x (Finset.mem_insert_self x seen)]
        simp
      · simp only [beq_iff_eq, hx, if_false]
        simpa using ih (insert x seen) e

/-- A not-yet-seen email that does occur appears exactly once. -/
lemma firstOccurrences_count_one :
    ∀ (es : List String) (seen : Finset String) (e : String),
      e ∉ seen → e ∈ es → (firstOccurrences seen es).count e = 1 := by
  intro es
  induction es with
  | nil => intro seen e _ he; simp at he
  | cons x xs ih =>
    intro seen e hn he
    by_cases h : x ∈ seen
    · simp only [firstOccurrences, if_pos h]
      rcases List.mem_cons.mp he with rfl | he'
      · exact absurd h hn
      · exact ih seen e hn he'
    · simp only [firstOccurrences, if_neg h]
      rw [List.count_cons]
      by_cases hx : x = e
      · subst hx
        rw [firstOccurrences_count_zero xs (insert x seen) x (Finset.mem_insert_self x seen)]
        simp
      · simp only [beq_iff_eq, hx, if_false]
        rcases List.mem_cons.mp he with rfl | he'
        · exact absurd rfl hx
        · have : e ∉ insert x seen := fun hmem => by
            rcases Finset.mem_insert.mp hmem with rfl | hmem'
            · exact hx rfl
            · exact hn hmem'
          simpa using ih (insert x seen) e this he'

/-! ## Lemmas about config parsing -/

/-- Updating a key makes lookup of that key return the new value. -/
lemma dictUpdate_self (d : Dict) (k v : String) : dictUpdate d k v k = some v := by
  simp [dictUpdate]

/-- Updating one key leaves other keys unchanged. -/
lemma dictUpdate_ne (d : Dict) {x k : String} (v : String) (h : x ≠ k) :
    dictUpdate d k v x = d x := by
  simp [dictUpdate, h]

/-- Lines that never assign `k` leave the stored value of `k` alone. -/
lemma foldl_parseStep_no_key :
    ∀ (ls : List String) (d : Dict) (k : String),
      (∀ x ∈ ls, (lineKV x).map Prod.fst ≠ some k) →
      (ls.foldl parseStep d) k = d k := by
  intro ls
  induction ls with
  | nil => intro d k _; rfl
  | cons x xs ih =>
    intro d k h
    rw [List.foldl_cons]
    have hx := h x (List.mem_cons_self x xs)
    have hrest : ∀ y ∈ xs, (lineKV y).map Prod.fst ≠ some k :=
      fun y hy => h y (List.mem_cons_of_mem x hy)
    rw [ih _ k hrest]
    cases hkv : lineKV x with
    | none => simp [parseStep, hkv]
    | some kv =>
      have hne : k ≠ kv.1 := by
        intro he
        exact hx (by simp [hkv, he])
      simp [parseStep, hkv, dictUpdate_ne _ _ hne]

/-- `REPLY-TO` defaulting: absent in the parsed dict means the final
value is the `FROM` value. -/
lemma withDefaults_replyTo_none {d : Dict} (h : d "REPLY-TO" = none) :
    withDefaults d "REPLY-TO" = some ((d "FROM").getD "") := by
  unfold withDefaults
  simp only [h]
  rw [dictUpdate_ne _ _ (by decide : ("FIRST_LASTNAME" : String) ≠ "REPLY-TO")]
  cases hFL : d "FIRST_LASTNAME" with
  | none =>
    simp only
    rw [dictUpdate_ne _ _ (by decide : ("REPLY-TO" : String) ≠ "FIRST_LASTNAME")]
    exact dictUpdate_self _ _ _
  | some w =>
    simp only
    exact dictUpdate_self _ _ _

/-- `REPLY-TO` explicit: the parsed value is kept. -/
lemma withDefaults_replyTo_some {d : Dict} {v : String} (h : d "REPLY-TO" = some v) :
    withDefaults d "REPLY-TO" = some v := by
  unfold withDefaults
  simp only [h]
  cases hFL : d "FIRST_LASTNAME" with
  | none =>
    simp only
    rw [dictUpdate_ne _ _ (by decide : ("REPLY-TO" : String) ≠ "FIRST_LASTNAME")]
    exact h
  | some w =>
    simp only
    exact h

/-- Defaulting never touches `FROM`. -/
lemma withDefaults_from (d : Dict) : withDefaults d "FROM" = d "FROM" := by
  unfold withDefaults
  cases hRT : d "REPLY-TO" with
  | none =>
    simp only
    rw [dictUpdate_ne _ _ (by decide : ("FIRST_LASTNAME" : String) ≠ "REPLY-TO")]
    cases hFL : d "FIRST_LASTNAME" with
    | none =>
      simp only
      rw [dictUpdate_ne _ _ (by decide : ("FROM" : String) ≠ "FIRST_LASTNAME")]
      exact dictUpdate_ne _ _ (by decide : ("FROM" : String) ≠ "REPLY-TO")
    | some w =>
      simp only
      exact dictUpdate_ne _ _ (by decide : ("FROM" : String) ≠ "REPLY-TO")
  | some v =>
    simp only
    cases hFL : d "FIRST_LASTNAME" with
    | none =>
      simp only
      exact dictUpdate_ne _ _ (by decide : ("FROM" : String) ≠ "FIRST_LASTNAME")
    | some w =>
      simp only

/-- `FIRST_LASTNAME` defaulting: absent means `"Sir or Madam"`. -/
lemma withDefaults_firstLastname_none {d : Dict} (h : d "FIRST_LASTNAME" = none) :
    withDefaults d "FIRST_LASTNAME" = some "Sir or Madam" := by
  unfold withDefaults
  cases hRT : d "REPLY-TO" with
  | none =>
    simp only
    rw [dictUpdate_ne _ _ (by decide : ("FIRST_LASTNAME" : String) ≠ "REPLY-TO"), h]
    exact dictUpdate_self _ _ _
  | some v =>
    simp only [h]
    exact dictUpdate_self _ _ _

/-! ## Lemmas about `load_emails` -/

/-- A well-formed row has exactly the 3-field-with-`@` shape. -/
lemma goodRow_shape {line : String} (hgr : goodRow line = true) :
    ∃ a b c, splitOnChar ',' line.data = [a, b, c] ∧ c.contains '@' = true := by
  unfold goodRow at hgr
  cases hsp : splitOnChar ',' line.data with
  | nil => rw [hsp] at hgr; simp at hgr
  | cons a t =>
    cases t with
    | nil => rw [hsp] at hgr; simp at hgr
    | cons b t2 =>
      cases t2 with
      | nil => rw [hsp] at hgr; simp at hgr
      | cons c t3 =>
        cases t3 with
        | nil =>
          rw [hsp] at hgr
          exact ⟨a, b, c, rfl, by simpa using hgr⟩
        | cons dd t4 => rw [hsp] at hgr; simp at hgr

/-- Comment lines are skipped: no record, no failure. -/
lemma load_emails_comment {l : String} (h : startsWithHash (pyStrip l) = true)
    (ls : List String) : load_emails (l :: ls) = load_emails ls := by
  simp [load_emails, h]

/-- A non-comment line failing the row assert aborts the parse with the
stripped offending line. -/
lemma load_emails_cons_bad {l : String} (hhash : startsWithHash (pyStrip l) = false)
    (hgr : goodRow (pyStrip l) = false) (ls : List String) :
    load_emails (l :: ls) = Except.error (pyStrip l) := by
  unfold goodRow at hgr
  cases hsp : splitOnChar ',' (pyStrip l).data with
  | nil => simp [load_emails, hhash, hsp]
  | cons a t =>
    cases t with
    | nil => simp [load_emails, hhash, hsp]
    | cons b t2 =>
      cases t2 with
      | nil => simp [load_emails, hhash, hsp]
      | cons c t3 =>
        cases t3 with
        | nil =>
          rw [hsp] at hgr
          simp only at hgr
          have hnc : '@' ∉ c := by simpa using hgr
          simp [load_emails, hhash, hsp, hnc]
        | cons dd t4 => simp [load_emails, hhash, hsp]

/-- A well-formed non-comment row propagates the tail's outcome,
consing one record on success. -/
lemma load_emails_cons_good {l : String} (hhash : startsWithHash (pyStrip l) = false)
    (hgr : goodRow (pyStrip l) = true) (ls : List String) :
    (∀ e, load_emails ls = Except.error e → load_emails (l :: ls) = Except.error e)
    ∧ (∀ rs, load_emails ls = Except.ok rs → ∃ r, load_emails (l :: ls) = Except.ok (r :: rs)) := by
  obtain ⟨a, b, c, hsp, hc⟩ := goodRow_shape hgr
  have hc' : '@' ∈ c := by simpa using hc
  constructor
  · intro e he
    simp [load_emails, hhash, hsp, hc', he]
  · intro rs hrs
    refine ⟨{ firstName := fieldOpt a, lastName := fieldOpt b,
              email := String.mk (charStrip c) }, ?_⟩
    simp [load_emails, hhash, hsp, hc', hrs]

/-- If every line is acceptable, the parse succeeds. -/
lemma load_emails_ok_of_all :
    ∀ (ls : List String), (∀ l ∈ ls, lineOk l = true) →
      ∃ rs, load_emails ls = Except.ok rs := by
  intro ls
  induction ls with
  | nil => intro _; exact ⟨[], rfl⟩
  | cons l ls ih =>
    intro h
    have hl := h l (List.mem_cons_self l ls)
    obtain ⟨rs, hrs⟩ := ih (fun x hx => h x (List.mem_cons_of_mem l hx))
    rcases Bool.or_eq_true_iff.mp (by simpa [lineOk] using hl) with hc | hg
    · exact ⟨rs, (load_emails_comment hc ls).trans hrs⟩
    · by_cases hc : startsWithHash (pyStrip l) = true
      · exact ⟨rs, (load_emails_comment hc ls).trans hrs⟩
      · obtain ⟨r, hr⟩ := (load_emails_cons_good (by simpa using hc) hg ls).2 rs hrs
        exact ⟨r :: rs, hr⟩

/-- The first unacceptable line aborts the whole parse, carrying that
(stripped) line. -/
lemma load_emails_error_at :
    ∀ (ls₁ : List String), (∀ x ∈ ls₁, lineOk x = true) →
      ∀ (l : String), lineOk l = false → ∀ (ls₂ : List String),
        load_emails (ls₁ ++ l :: ls₂) = Except.error (pyStrip l) := by
  intro ls₁
  induction ls₁ with
  | nil =>
    intro _ l hl ls₂
    have hboth := Bool.or_eq_false_iff.mp (by simpa [lineOk] using hl)
    exact load_emails_cons_bad hboth.1 hboth.2 ls₂
  | cons x xs ih =>
    intro h l hl ls₂
    have hx := h x (List.mem_cons_self x xs)
    have hrest := ih (fun y hy => h y (List.mem_cons_of_mem x hy)) l hl ls₂
    rw [List.cons_append]
    rcases Bool.or_eq_true_iff.mp (by simpa [lineOk] using hx) with hc | hg
    · exact (load_emails_comment hc _).trans hrest
    · by_cases hc : startsWithHash (pyStrip x) = true
      · exact (load_emails_comment hc _).trans hrest
      · exact (load_emails_cons_good (by simpa using hc) hg _).1 _ hrest

/-! ## Claim theorems -/

/-- C1: the spec says the display name of a recipient with a first name
is `trim(firstName + " " + (lastName or ""))`, so with no last name just
the trimmed first name.  The code instead formats the `None` last name
as the literal string `"None"`: for the row `John,,john@example.org` it
renders `"John None"` where the spec demands `"John"`.  (The
firstName-absent branch does agree with the spec: it yields the
configured default.) -/
theorem c1_display_name_lastname_bug :
    displayName "Sir or Madam"
        { firstName := some "John", lastName := none, email := "john@example.org" }
      = "John None"
    ∧ displayNameSpec "Sir or Madam"
        { firstName := some "John", lastName := none, email := "john@example.org" }
      = "John"
    ∧ displayName "Sir or Madam"
        { firstName := some "John", lastName := none, email := "john@example.org" }
      ≠ displayNameSpec "Sir or Madam"
        { firstName := some "John", lastName := none, email := "john@example.org" }
    ∧ (∀ (dflt : String) (ln : Option String),
        displayName dflt { firstName := none, lastName := ln, email := "x@y" } = dflt) :=
  ⟨by decide, by decide, by decide, fun _ _ => rfl⟩

/-- C2: in a recipient list containing two rows with the same email
address, the dispatcher's transport calls are exactly the
first-occurrence deduplication of the email sequence (so only the first
occurrence is attempted, exactly once), at least one skip is counted,
and a fresh email is added to the seen set regardless of the transport
outcome (so a later duplicate is skipped even if the earlier send
fails); the name fields play no role. -/
theorem c2_dedup_first_occurrence (cfg : Dict) (template : String)
    (transport : SendCall → Bool) (l₁ l₂ l₃ : List Recipient) (r₁ r₂ : Recipient)
    (he : r₁.email = r₂.email) :
    ((runLoop cfg template Mode.live transport
        ((l₁ ++ (r₁ :: l₂)) ++ (r₂ :: l₃))).calls.map (fun c => c.msg.toAddr))
      = firstOccurrences ∅ (((l₁ ++ (r₁ :: l₂)) ++ (r₂ :: l₃)).map (fun r => r.email))
    ∧ ((runLoop cfg template Mode.live transport
        ((l₁ ++ (r₁ :: l₂)) ++ (r₂ :: l₃))).calls.map (fun c => c.msg.toAddr)).count r₁.email
      = 1
    ∧ 1 ≤ (runLoop cfg template Mode.live transport ((l₁ ++ (r₁ :: l₂)) ++ (r₂ :: l₃))).skipped
    ∧ (∀ (st : LoopState) (r : Recipient) (tr : SendCall → Bool),
        r.email ∈ (processRecipient cfg template Mode.live tr st r).seen) := by
  have hchar :
      ((runLoop cfg template Mode.live transport
          ((l₁ ++ (r₁ :: l₂)) ++ (r₂ :: l₃))).calls.map (fun c => c.msg.toAddr))
        = firstOccurrences ∅ (((l₁ ++ (r₁ :: l₂)) ++ (r₂ :: l₃)).map (fun r => r.email)) := by
    have h := foldl_calls_live cfg template transport
      ((l₁ ++ (r₁ :: l₂)) ++ (r₂ :: l₃)) initState
    simpa [runLoop, initState] using h
  refine ⟨hchar, ?_, ?_, fun st r tr => processRecipient_seen cfg template Mode.live tr st r⟩
  · rw [hchar]
    refine firstOccurrences_count_one _ _ _ (by simp) ?_
    simp
  · have hmem : r₂.email ∈
        ((l₁ ++ (r₁ :: l₂)).foldl
          (processRecipient cfg template Mode.live transport) initState).seen := by
      rw [← he]
      exact foldl_mem_seen cfg template Mode.live transport _ _ r₁.email (by simp)
    have hsplit : runLoop cfg template Mode.live transport
        ((l₁ ++ (r₁ :: l₂)) ++ (r₂ :: l₃))
        = l₃.foldl (processRecipient cfg template Mode.live transport)
            (processRecipient cfg template Mode.live transport
              ((l₁ ++ (r₁ :: l₂)).foldl
                (processRecipient cfg template Mode.live transport) initState) r₂) := by
      simp [runLoop, List.foldl_append]
    rw [hsplit]
    refine le_trans ?_ (foldl_skipped_mono cfg template Mode.live transport l₃ _)
    rw [processRecipient_dup hmem]
    simp

/-- C3: in live mode a failed transport call for a fresh recipient
increments the error counter by one; the loop structurally continues
with the remaining recipients from whatever state results; and at the
end the error counter equals the number of failed transport calls while
the final report lists errors, skips, and the full length of the
original recipient list, duplicates included. -/
theorem c3_transport_failure_recovered (cfg : Dict) (template : String)
    (transport : SendCall → Bool) :
    (∀ (st : LoopState) (r : Recipient), r.email ∉ st.seen →
        transport (buildCall cfg template r) = false →
        (processRecipient cfg template Mode.live transport st r).errors = st.errors + 1)
    ∧ (∀ (l₁ l₂ : List Recipient),
        runLoop cfg template Mode.live transport (l₁ ++ l₂)
          = l₂.foldl (processRecipient cfg template Mode.live transport)
              (runLoop cfg template Mode.live transport l₁))
    ∧ (∀ l : List Recipient,
        (runLoop cfg template Mode.live transport l).errors
          = (runLoop cfg template Mode.live transport l).calls.countP
              (fun c => !(transport c))
        ∧ finalReport cfg template Mode.live transport l
            = ((runLoop cfg template Mode.live transport l).errors,
               (runLoop cfg template Mode.live transport l).skipped, l.length)) := by
  refine ⟨?_, ?_, ?_⟩
  · intro st r hmem ht
    simp [processRecipient, hmem, ht]
  · intro l₁ l₂
    simp [runLoop, List.foldl_append]
  · intro l
    exact ⟨foldl_errors_countP cfg template Mode.live transport l initState rfl, rfl⟩

/-- C5: in dry-run mode the transport is never invoked (the call log
stays empty) and the error counter stays zero, for every config,
template, transport oracle and recipient list; the final report shows
zero errors. -/
theorem c5_dry_run_no_transport (cfg : Dict) (template : String)
    (transport : SendCall → Bool) (l : List Recipient) :
    (runLoop cfg template Mode.dryRun transport l).calls = []
    ∧ (runLoop cfg template Mode.dryRun transport l).errors = 0
    ∧ finalReport cfg template Mode.dryRun transport l
        = (0, (runLoop cfg template Mode.dryRun transport l).skipped, l.length) := by
  obtain ⟨h1, h2⟩ := foldl_dry cfg template transport l initState
  refine ⟨h1, h2, ?_⟩
  simp only [finalReport]
  rw [show (runLoop cfg template Mode.dryRun transport l).errors = 0 from h2]

/-- C6: whenever config loading succeeds, the resulting dictionary has
`REPLY-TO` equal to the `FROM` value when no line set `REPLY-TO`, equal
to the explicitly set value otherwise, and `FIRST_LASTNAME` equal to
`"Sir or Madam"` when no line set it. -/
theorem c6_config_defaults (lines : List String)
    (h : (load_config lines).isSome = true) :
    (parseLines lines "REPLY-TO" = none →
      ((load_config lines).getD dEmpty) "REPLY-TO"
        = ((load_config lines).getD dEmpty) "FROM")
    ∧ (∀ v, parseLines lines "REPLY-TO" = some v →
      ((load_config lines).getD dEmpty) "REPLY-TO" = some v)
    ∧ (parseLines lines "FIRST_LASTNAME" = none →
      ((load_config lines).getD dEmpty) "FIRST_LASTNAME" = some "Sir or Madam") := by
  cases hcb : ((parseLines lines "SMTP").isSome && (parseLines lines "FROM").isSome
      && (parseLines lines "SUBJECT").isSome) with
  | false =>
    have hnone : load_config lines = none := by simp [load_config, hcb]
    rw [hnone] at h
    simp at h
  | true =>
    have hlc : load_config lines = some (withDefaults (parseLines lines)) := by
      simp [load_config, hcb]
    have hFrom : (parseLines lines "FROM").isSome = true := by
      simp [Bool.and_eq_true] at hcb
      exact hcb.1.2
    obtain ⟨f, hf⟩ := Option.isSome_iff_exists.mp hFrom
    rw [hlc]
    simp only [Option.getD_some]
    refine ⟨?_, ?_, ?_⟩
    · intro hRT
      rw [withDefaults_replyTo_none hRT, withDefaults_from, hf]
      rfl
    · intro v hRT
      exact withDefaults_replyTo_some hRT
    · intro hFL
      exact withDefaults_firstLastname_none hFL

/-- C9: when several assignment lines share the same (trimmed,
upper-cased) key, the value of the last such line wins: any line
assigning `k` followed only by lines not assigning `k` determines the
stored value of `k`. -/
theorem c9_last_assignment_wins (ls₁ ls₂ : List String) (l : String) (k v : String)
    (h₁ : lineKV l = some (k, v))
    (h₂ : ∀ x ∈ ls₂, (lineKV x).map Prod.fst ≠ some k) :
    parseLines (ls₁ ++ l :: ls₂) k = some v := by
  unfold parseLines
  rw [List.foldl_append, List.foldl_cons]
  rw [foldl_parseStep_no_key ls₂ _ k h₂]
  simp [parseStep, h₁, dictUpdate_self]

/-- C10: the required-key check tests presence only: `FROM=` stores the
empty string under `FROM`, and loading succeeds whenever `SMTP`, `FROM`
and `SUBJECT` are present, regardless of their (possibly empty)
values. -/
theorem c10_required_keys_presence_only :
    parseLines ["FROM="] "FROM" = some ""
    ∧ ∀ lines : List String, (parseLines lines "SMTP").isSome = true →
        (parseLines lines "FROM").isSome = true →
        (parseLines lines "SUBJECT").isSome = true →
        (load_config lines).isSome = true := by
  refine ⟨by decide, ?_⟩
  intro lines h1 h2 h3
  simp [load_config, h1, h2, h3]

/-- C4: counterexample to the claim that blank lines never cause a
failure: a blank line is not a comment line, splits into a single empty
field, and aborts the whole run (no send happens) with a malformed-row
error carrying the (empty) offending line. -/
theorem c4_blank_line_counterexample :
    startsWithHash (pyStrip "") = false
    ∧ load_emails [""] = Except.error ""
    ∧ mainRun dEmpty "" Mode.live (fun _ => true) [""] = Except.error "" :=
  ⟨rfl, rfl, rfl⟩

/-- C4 (amended): the parser skips exactly the lines whose stripped form
starts with `#` (producing no record and no failure); if every line is a
comment or a well-formed 3-field row whose third field contains `@`,
loading succeeds; and the first line that is neither — blank lines
included — aborts the whole run before any send, with the error carrying
that stripped line. -/
theorem c4_recipient_parser_amended :
    (∀ (l : String) (ls : List String), startsWithHash (pyStrip l) = true →
        load_emails (l :: ls) = load_emails ls)
    ∧ (∀ ls : List String, (∀ l ∈ ls, lineOk l = true) →
        ∃ rs, load_emails ls = Except.ok rs)
    ∧ (∀ (ls₁ : List String) (l : String) (ls₂ : List String),
        (∀ x ∈ ls₁, lineOk x = true) → lineOk l = false →
        load_emails (ls₁ ++ l :: ls₂) = Except.error (pyStrip l)
        ∧ ∀ (cfg : Dict) (template : String) (mode : Mode) (transport : SendCall → Bool),
            mainRun cfg template mode transport (ls₁ ++ l :: ls₂)
              = Except.error (pyStrip l)) := by
  refine ⟨fun l ls h => load_emails_comment h ls, load_emails_ok_of_all, ?_⟩
  intro ls₁ l ls₂ h1 h2
  have herr := load_emails_error_at ls₁ h1 l h2 ls₂
  exact ⟨herr, fun cfg template mode transport => by simp [mainRun, herr]⟩

/-- C7: counterexample to "exactly N occurrences of the name": the
template `x{{FIRST_LASTNAME}}` has one placeholder occurrence and the
name `x` contains no placeholder substring, yet the rendered body `xx`
contains two occurrences of the name. -/
theorem c7_round_trip_counterexample :
    occurrences placeholder "x\x7b\x7bFIRST_LASTNAME\x7d\x7d" = 1
    ∧ occurrences placeholder "x" = 0
    ∧ occurrences "x" (pyReplace "x\x7b\x7bFIRST_LASTNAME\x7d\x7d" placeholder "x") = 2 :=
  ⟨by decide, by decide, by decide⟩

/-- C7 (amended): for every template with N placeholder occurrences and
every nonempty display name none of whose characters occurs in the
template, the rendered body contains zero remaining placeholder tokens
and exactly N occurrences of the name. -/
theorem c7_round_trip_amended (t d : String) (hne : d.data ≠ [])
    (hdis : ∀ c ∈ d.data, c ∉ t.data) :
    occurrences placeholder (pyReplace t placeholder d) = 0
    ∧ occurrences d (pyReplace t placeholder d) = occurrences placeholder t := by
  have hpat : placeholder.data ≠ [] := by decide
  constructor
  · by_cases h0 : countOccs placeholder.data t.data = 0
    · show countOccs placeholder.data (listReplace placeholder.data d.data t.data) = 0
      rw [listReplace_of_no_occ h0]
      exact h0
    · have hsub : ∀ a ∈ placeholder.data, a ∈ t.data := mem_of_countOccs_ne_zero h0
      have hpd : ∀ a ∈ placeholder.data, a ∉ d.data :=
        fun a hap had => (hdis a had) (hsub a hap)
      exact countOccs_listReplace_self hne hpat hpd t.data.length t.data le_rfl
  · exact countOccs_rep_listReplace hne t.data.length t.data le_rfl hdis

/-- C8: at the end of the loop over any recipient list (hence, applying
this to any prefix, at every intermediate point), `SKIPPED` plus the
cardinality of the seen set equals the number of recipients processed,
and every email address appears at most once in the transport-call log
(each distinct address is attempted at most once). -/
theorem c8_skipped_seen_invariant (cfg : Dict) (template : String) (mode : Mode)
    (transport : SendCall → Bool) (l : List Recipient) :
    (runLoop cfg template mode transport l).skipped
        + (runLoop cfg template mode transport l).seen.card = l.length
    ∧ ∀ e : String,
        ((runLoop cfg template mode transport l).calls.map
          (fun c => c.msg.toAddr)).count e ≤ 1 := by
  constructor
  · have h := foldl_skipped_card cfg template mode transport l initState
    simpa [runLoop, initState] using h
  · intro e
    cases mode with
    | dryRun =>
      have h := (foldl_dry cfg template transport l initState).1
      have : (runLoop cfg template Mode.dryRun transport l).calls = [] := h
      rw [this]
      simp
    | live =>
      have h := foldl_calls_live cfg template transport l initState
      have hrw : ((runLoop cfg template Mode.live transport l).calls.map
          (fun c => c.msg.toAddr))
          = firstOccurrences ∅ (l.map (fun r => r.email)) := by
        simpa [runLoop, initState] using h
      rw [hrw]
      exact firstOccurrences_count_le_one _ _ e

/-! ## Witnesses -/

/-- Witness for C2: a concrete two-row list with the same address and an
always-failing transport; the hypothesis holds and the duplicate is
still skipped. -/
theorem c2_dedup_first_occurrence_witness :
    (Recipient.mk (some "John") (some "Doe") "john@x").email
      = (Recipient.mk none none "john@x").email
    ∧ 1 ≤ (runLoop dEmpty "" Mode.live (fun _ => false)
        (([] ++ (Recipient.mk (some "John") (some "Doe") "john@x" :: []))
          ++ (Recipient.mk none none "john@x" :: []))).skipped :=
  ⟨rfl,
   (c2_dedup_first_occurrence dEmpty "" (fun _ => false) [] [] []
      (Recipient.mk (some "John") (some "Doe") "john@x")
      (Recipient.mk none none "john@x") rfl).2.2.1⟩

/-- Witness for C3: a fresh recipient whose transport call fails bumps
the error counter from 0 to 1. -/
theorem c3_transport_failure_recovered_witness :
    ((Recipient.mk none none "a@b").email ∉ initState.seen)
    ∧ (processRecipient dEmpty "" Mode.live (fun _ => false) initState
        (Recipient.mk none none "a@b")).errors = initState.errors + 1 :=
  ⟨by decide,
   (c3_transport_failure_recovered dEmpty "" (fun _ => false)).1 initState
     (Recipient.mk none none "a@b") (by decide) rfl⟩

/-- Witness for C4 (amended): a comment line and a good row followed by
a blank line; the parse aborts with the stripped blank line. -/
theorem c4_recipient_parser_amended_witness :
    (∀ x ∈ ["# note", "John,Doe,john@x"], lineOk x = true)
    ∧ lineOk "" = false
    ∧ load_emails (["# note", "John,Doe,john@x"] ++ "" :: ["A,B,c@d"])
        = Except.error (pyStrip "") :=
  ⟨by decide, by decide,
   (c4_recipient_parser_amended.2.2 ["# note", "John,Doe,john@x"] "" ["A,B,c@d"]
      (by decide) (by decide)).1⟩

/-- Witness for C6: a minimal config with no `REPLY-TO` line; loading
succeeds and `REPLY-TO` ends up equal to `FROM`. -/
theorem c6_config_defaults_witness :
    (load_config ["SMTP=s", "FROM=a@x", "SUBJECT=Hi"]).isSome = true
    ∧ (parseLines ["SMTP=s", "FROM=a@x", "SUBJECT=Hi"] "REPLY-TO" = none →
        ((load_config ["SMTP=s", "FROM=a@x", "SUBJECT=Hi"]).getD dEmpty) "REPLY-TO"
          = ((load_config ["SMTP=s", "FROM=a@x", "SUBJECT=Hi"]).getD dEmpty) "FROM") :=
  ⟨by decide, (c6_config_defaults ["SMTP=s", "FROM=a@x", "SUBJECT=Hi"] (by decide)).1⟩

/-- Witness for C7 (amended): template `Hi {{FIRST_LASTNAME}}.` and name
`Bob` share no character; rendering leaves no placeholder and exactly
one copy of the name. -/
theorem c7_round_trip_amended_witness :
    ("Bob".data ≠ [])
    ∧ (∀ c ∈ "Bob".data, c ∉ ("Hi \x7b\x7bFIRST_LASTNAME\x7d\x7d.").data)
    ∧ occurrences placeholder
        (pyReplace "Hi \x7b\x7bFIRST_LASTNAME\x7d\x7d." placeholder "Bob") = 0
    ∧ occurrences "Bob" (pyReplace "Hi \x7b\x7bFIRST_LASTNAME\x7d\x7d." placeholder "Bob")
        = occurrences placeholder "Hi \x7b\x7bFIRST_LASTNAME\x7d\x7d." :=
  ⟨by decide, by decide,
   (c7_round_trip_amended "Hi \x7b\x7bFIRST_LASTNAME\x7d\x7d." "Bob"
      (by decide) (by decide)).1,
   (c7_round_trip_amended "Hi \x7b\x7bFIRST_LASTNAME\x7d\x7d." "Bob"
      (by decide) (by decide)).2⟩

/-- Witness for C9: `FROM=a` then `FROM=b` then an unrelated line; the
stored value is `b`. -/
theorem c9_last_assignment_wins_witness :
    lineKV "FROM=b" = some ("FROM", "b")
    ∧ (∀ x ∈ ["SMTP=s"], (lineKV x).map Prod.fst ≠ some "FROM")
    ∧ parseLines (["FROM=a"] ++ "FROM=b" :: ["SMTP=s"]) "FROM" = some "b" :=
  ⟨by decide, by decide,
   c9_last_assignment_wins ["FROM=a"] ["SMTP=s"] "FROM=b" "FROM" "b"
     (by decide) (by decide)⟩

/-- Witness for C10: all three required keys present with empty values;
loading succeeds. -/
theorem c10_required_keys_presence_only_witness :
    (parseLines ["SMTP=", "FROM=", "SUBJECT="] "SMTP").isSome = true
    ∧ (parseLines ["SMTP=", "FROM=", "SUBJECT="] "FROM").isSome = true
    ∧ (parseLines ["SMTP=", "FROM=", "SUBJECT="] "SUBJECT").isSome = true
    ∧ (load_config ["SMTP=", "FROM=", "SUBJECT="]).isSome = true :=
  ⟨by decide, by decide, by decide,
   c10_required_keys_presence_only.2 ["SMTP=", "FROM=", "SUBJECT="]
     (by decide) (by decide) (by decide)⟩
